import Mathlib

/-!
Shallow embedding of the PDF Chapter Splitter core (src/main.py) and
verification of its specification claims.

The embedding models:
* sanitize_filename, the title sanitizer           (main.py lines 11-17)
* extract_potential_chapters, the bookmark walker  (main.py lines 20-92)
* the range-inference loop building initial_data   (main.py lines 165-188)
* split_pdf, the validator and splitter            (main.py lines 95-136)

Pages are modelled as an abstract list: a SourceDocument is a list of pages
and split_pdf copies contiguous segments of that list.  Python integers are
Int; values that may be absent or of the wrong runtime type are modelled
explicitly.  Streamlit warning and error calls are I/O side effects with no
influence on the data flow, so they do not appear in the embedding; a code
path that warns and continues is simply the path that yields no output for
the offending item and proceeds with the rest.
-/

namespace PDFSplitter

/-- Characters removed by the sanitizer: the Python character class of
backslash, slash, star, question mark, colon, double quote, angle brackets
and pipe (main.py line 13). -/
def invalidChars : List Char := ['\\', '/', '*', '?', ':', '"', '<', '>', '|']

/-- Predicate for characters kept by the removal step of the sanitizer. -/
def keepChar (c : Char) : Bool := !(invalidChars.contains c)

/-- Space-to-underscore replacement applied per character (main.py line 15). -/
def replaceSpace (c : Char) : Char := if c = ' ' then '_' else c

/-- Embedding of sanitize_filename (main.py lines 11-17): drop every
character of invalidChars, replace each space by an underscore, keep the
first 100 characters.  Python slicing and replacement act on code points,
matching List Char here. -/
def sanitize_filename (name : String) : String :=
  String.mk (((name.toList.filter keepChar).map replaceSpace).take 100)

theorem keepChar_iff (c : Char) : keepChar c = true ↔ c ∉ invalidChars := by
  simp [keepChar]

theorem map_id_of_mem {α : Type} {l : List α} {f : α → α}
    (h : ∀ c ∈ l, f c = c) : l.map f = l := by
  induction l with
  | nil => rfl
  | cons a t ih =>
      simp only [List.map_cons]
      rw [h a (by simp), ih fun c hc => h c (by simp [hc])]

end PDFSplitter

namespace PDFSplitter

/-- C5: for every input string the sanitizer output contains none of the
invalid characters and no space, has at most 100 characters, and an input
consisting only of invalid characters sanitizes to the empty string. -/
theorem sanitize_output_clean (s : String) :
    (∀ c ∈ (sanitize_filename s).toList, c ∉ invalidChars ∧ c ≠ ' ') ∧
    (sanitize_filename s).toList.length ≤ 100 ∧
    ((∀ c ∈ s.toList, c ∈ invalidChars) → sanitize_filename s = "") := by
  refine ⟨?_, ?_, ?_⟩
  · intro c hc
    have hc2 : c ∈ ((s.toList.filter keepChar).map replaceSpace).take 100 := hc
    obtain ⟨d, hd, rfl⟩ := List.mem_map.mp (List.mem_of_mem_take hc2)
    have hdnot : d ∉ invalidChars := (keepChar_iff d).mp (List.of_mem_filter hd)
    by_cases hsp : d = ' '
    · subst hsp
      exact ⟨by decide, by decide⟩
    · have hrepl : replaceSpace d = d := if_neg hsp
      rw [hrepl]
      exact ⟨hdnot, hsp⟩
  · exact List.length_take_le 100 _
  · intro hall
    have hfilter : s.toList.filter keepChar = [] := by
      apply List.filter_eq_nil_iff.mpr
      intro c hc
      simp [keepChar, hall c hc]
    show String.mk (((s.toList.filter keepChar).map replaceSpace).take 100) = ""
    rw [hfilter]
    rfl

/-- Witness for sanitize_output_clean at the concrete inputs
"a b/" and ":*?". -/
theorem sanitize_output_clean_witness :
    ('_' ∉ invalidChars ∧ '_' ≠ ' ') ∧ sanitize_filename ":*?" = "" :=
  ⟨(sanitize_output_clean "a b/").1 '_' (by decide),
   (sanitize_output_clean ":*?").2.2 (by decide)⟩

/-- C6: on an input with no invalid character and no space, the sanitizer
returns exactly the first 100 characters of the input, and it is idempotent
on such input. -/
theorem sanitize_clean_input (s : String)
    (h : ∀ c ∈ s.toList, c ∉ invalidChars ∧ c ≠ ' ') :
    sanitize_filename s = String.mk (s.toList.take 100) ∧
    sanitize_filename (sanitize_filename s) = sanitize_filename s := by
  have clean_eq : ∀ l : List Char, (∀ c ∈ l, c ∉ invalidChars ∧ c ≠ ' ') →
      (l.filter keepChar).map replaceSpace = l := by
    intro l hl
    have hfilter : l.filter keepChar = l :=
      List.filter_eq_self.mpr fun c hc => (keepChar_iff c).mpr (hl c hc).1
    rw [hfilter]
    exact map_id_of_mem fun c hc => if_neg (hl c hc).2
  have hmain : sanitize_filename s = String.mk (s.toList.take 100) := by
    show String.mk (((s.toList.filter keepChar).map replaceSpace).take 100)
      = String.mk (s.toList.take 100)
    rw [clean_eq s.toList h]
  refine ⟨hmain, ?_⟩
  rw [hmain]
  have htake : ∀ c ∈ s.toList.take 100, c ∉ invalidChars ∧ c ≠ ' ' :=
    fun c hc => h c (List.mem_of_mem_take hc)
  show String.mk ((((s.toList.take 100).filter keepChar).map replaceSpace).take 100)
    = String.mk (s.toList.take 100)
  rw [clean_eq _ htake, List.take_take, min_self]

/-- Witness for sanitize_clean_input at the concrete clean input
"Intro_1". -/
theorem sanitize_clean_input_witness :
    sanitize_filename "Intro_1" = String.mk ("Intro_1".toList.take 100) ∧
    sanitize_filename (sanitize_filename "Intro_1") = sanitize_filename "Intro_1" :=
  sanitize_clean_input "Intro_1" (by decide)

end PDFSplitter

namespace PDFSplitter

/-- Runtime shapes a bookmark title can take in main.py lines 33-45: a
direct text string, an indirect object that resolves either to a text
string or to some other object (identified by its object number), or a
value of any other type (identified by its type name). -/
inductive TitleVal where
  | text (s : String)
  | indirect (resolved : Option String) (idnum : Nat)
  | other (typeName : String)
deriving DecidableEq

/-- Outcome of looking up the 0-based page number of a bookmark target
(main.py line 48): a concrete index, a None result, or a raised exception
which the per-item handler catches, warns about and skips. -/
inductive PageRes where
  | page (n : Nat)
  | missing
  | err
deriving DecidableEq

/-- Outline tree shape seen by the walker: a pypdf Destination or a nested
list of further outline items. -/
inductive OutlineItem where
  | dest (title : TitleVal) (page : PageRes)
  | group (children : List OutlineItem)

/-- Title resolution for a top-level Destination (main.py lines 33-45). -/
def resolveTitleTop : TitleVal → String
  | TitleVal.indirect (some s) _ => s.trim
  | TitleVal.indirect none i => "Unknown Title (Obj " ++ toString i ++ ")"
  | TitleVal.text s => s.trim
  | TitleVal.other t => "Unknown Title (Type " ++ t ++ ")"

/-- Title resolution for the first child of a nested list (main.py lines
62-72); placeholders differ from the top-level ones in their wording. -/
def resolveTitleNested : TitleVal → String
  | TitleVal.indirect (some s) _ => s.trim
  | TitleVal.indirect none i => "Unknown Nested Title (Obj " ++ toString i ++ ")"
  | TitleVal.text s => s.trim
  | TitleVal.other t => "Unknown Nested Title (Type " ++ t ++ ")"

/-- Candidates contributed by one top-level Destination (main.py lines
31-52): a single (title, 1-based page) pair when the page resolves, nothing
when the lookup returns None or raises. -/
def processDest (t : TitleVal) (p : PageRes) : List (String × Nat) :=
  match p with
  | PageRes.page n => [(resolveTitleTop t, n + 1)]
  | PageRes.missing => []
  | PageRes.err => []

/-- Candidates contributed by the first child of a nested list (main.py
lines 56-78), with the Nested suffix appended to the title. -/
def processNested (t : TitleVal) (p : PageRes) : List (String × Nat) :=
  match p with
  | PageRes.page n => [(resolveTitleNested t ++ " (Nested)", n + 1)]
  | PageRes.missing => []
  | PageRes.err => []

/-- Candidates contributed by one top-level outline item: a Destination is
processed directly; of a nested list only a first child that is itself a
Destination is processed; anything else contributes nothing. -/
def processItem : OutlineItem → List (String × Nat)
  | OutlineItem.dest t p => processDest t p
  | OutlineItem.group [] => []
  | OutlineItem.group (OutlineItem.dest t p :: _) => processNested t p
  | OutlineItem.group (OutlineItem.group _ :: _) => []

/-- The top-level loop over the outline (main.py lines 29-78). -/
def walkOutline (items : List OutlineItem) : List (String × Nat) :=
  items.flatMap processItem

/-- Comparison used by the final sort (main.py line 84): ascending 1-based
start page. -/
def candLE (a b : String × Nat) : Bool := a.2 ≤ b.2

/-- Embedding of extract_potential_chapters (main.py lines 20-92): walk the
top level of the outline and sort the collected candidates by start page.
The source returns the empty list untouched when no candidate was found,
which coincides with sorting it. -/
def extract_potential_chapters (items : List OutlineItem) : List (String × Nat) :=
  (walkOutline items).mergeSort candLE

end PDFSplitter

namespace PDFSplitter

/-- C4: the candidate sequence returned by the bookmark walker is sorted
ascending by its 1-based start page, whatever the outline order was. -/
theorem extract_sorted (items : List OutlineItem) :
    (extract_potential_chapters items).Pairwise fun a b => a.2 ≤ b.2 := by
  have h := @List.sorted_mergeSort (String × Nat) candLE
    (fun a b c hab hbc => by
      simp only [candLE, decide_eq_true_eq] at *
      omega)
    (fun a b => by
      simp only [candLE, Bool.or_eq_true, decide_eq_true_eq]
      omega)
    (walkOutline items)
  exact h.imp fun hab => by simpa [candLE] using hab

end PDFSplitter

namespace PDFSplitter

/-- C7: the walker is total and degrades per-node: a Destination whose page
lookup raises, or returns no page, contributes nothing and the remaining
outline items are processed exactly as if it were absent; a Destination
whose title alone is unresolvable still yields a candidate, carrying a
placeholder title that encodes the object number.  The raising path and the
None path differ only in the warning they print, which is I/O outside the
embedding. -/
theorem extract_skips_bad_nodes (xs ys : List OutlineItem) (t : TitleVal) :
    extract_potential_chapters (xs ++ OutlineItem.dest t PageRes.err :: ys)
      = extract_potential_chapters (xs ++ ys) ∧
    extract_potential_chapters (xs ++ OutlineItem.dest t PageRes.missing :: ys)
      = extract_potential_chapters (xs ++ ys) ∧
    ∀ i n, processItem (OutlineItem.dest (TitleVal.indirect none i) (PageRes.page n))
      = [("Unknown Title (Obj " ++ toString i ++ ")", n + 1)] := by
  refine ⟨?_, ?_, ?_⟩
  · simp [extract_potential_chapters, walkOutline, processItem, processDest]
  · simp [extract_potential_chapters, walkOutline, processItem, processDest]
  · intro i n
    rfl

/-- C8 counterexample: a nested group's first child with an unresolvable
indirect title does not receive the leaf title resolution plus the Nested
suffix; its placeholder reads Unknown Nested Title instead of Unknown
Title. -/
theorem nested_placeholder_counterexample :
    processItem (OutlineItem.group
        [OutlineItem.dest (TitleVal.indirect none 7) (PageRes.page 0)])
      ≠ [(resolveTitleTop (TitleVal.indirect none 7) ++ " (Nested)", 1)] := by
  decide

/-- C8 amended: for a group node at the top level only the first child
matters (all remaining siblings are ignored); a first child that is a
Destination with a resolvable page yields one candidate whose title is the
nested title resolution with the Nested suffix appended; nested title
resolution agrees with leaf resolution on proper text titles, direct or
indirect, and differs only in the wording of placeholders. -/
theorem group_first_child_spec (c : OutlineItem) (rest xs : List OutlineItem)
    (t : TitleVal) (n : Nat) :
    walkOutline (OutlineItem.group (c :: rest) :: xs)
      = walkOutline (OutlineItem.group [c] :: xs) ∧
    walkOutline (OutlineItem.group (OutlineItem.dest t (PageRes.page n) :: rest) :: xs)
      = (resolveTitleNested t ++ " (Nested)", n + 1) :: walkOutline xs ∧
    (∀ s i, resolveTitleNested (TitleVal.indirect (some s) i)
        = resolveTitleTop (TitleVal.indirect (some s) i)) ∧
    (∀ s, resolveTitleNested (TitleVal.text s) = resolveTitleTop (TitleVal.text s)) := by
  refine ⟨?_, ?_, fun s i => rfl, fun s => rfl⟩
  · cases c with
    | dest t p => rfl
    | group cs => rfl
  · simp [walkOutline, processItem, processNested]

end PDFSplitter

namespace PDFSplitter

/-- Row of the editable chapter table as pre-populated by the application
(main.py lines 176-187): all three fields are present and the page fields
hold naturals. -/
structure RowData where
  chapterName : String
  startPage : Nat
  endPage : Nat
deriving DecidableEq

/-- Embedding of the range-inference loop over the sorted candidates
(main.py lines 166-180): the end page defaults to the total page count,
a following candidate overrides it with its start page minus one, and an
end page falling below the start page is clamped up to the start page.
Start pages produced by the walker are 1-based and positive, so natural
subtraction in the look-ahead agrees with Python subtraction; at a start
page of zero both settle at the same clamped value. -/
def inferRanges : List (String × Nat) → Nat → List RowData
  | [], _ => []
  | c :: rest, total =>
    let computed := match rest with
      | [] => total
      | c2 :: _ => c2.2 - 1
    let e := if computed < c.2 then c.2 else computed
    RowData.mk c.1 c.2 e :: inferRanges rest total

/-- Embedding of the initial_data construction (main.py lines 165-188):
infer ranges from the candidates when there are any, otherwise synthesize
the single whole-document default row. -/
def initial_data (potential : List (String × Nat)) (totalPages : Nat) : List RowData :=
  match potential with
  | [] => [RowData.mk "Chapter 1" 1 totalPages]
  | _ :: _ => inferRanges potential totalPages

theorem inferRanges_cons (c : String × Nat) (rest : List (String × Nat)) (total : Nat) :
    inferRanges (c :: rest) total =
      RowData.mk c.1 c.2
        (let computed := match rest with
          | [] => total
          | c2 :: _ => c2.2 - 1
         if computed < c.2 then c.2 else computed) :: inferRanges rest total := rfl

end PDFSplitter

namespace PDFSplitter

theorem inferRanges_get_start (total : Nat) :
    ∀ (cands : List (String × Nat)) (i : Nat),
      ((inferRanges cands total).get? i).map RowData.startPage
        = (cands.get? i).map Prod.snd
  | [], i => by simp [inferRanges]
  | c :: rest, 0 => by rw [inferRanges_cons]; rfl
  | c :: rest, i + 1 => by
      rw [inferRanges_cons]
      simpa using inferRanges_get_start total rest i

theorem inferRanges_get_end (total : Nat) :
    ∀ (cands : List (String × Nat)) (i : Nat) (r : RowData),
      (inferRanges cands total).get? i = some r →
      r.endPage = max r.startPage
        (match cands.get? (i + 1) with
          | some c2 => c2.2 - 1
          | none => total)
  | [], i, r => by simp [inferRanges]
  | c :: rest, 0, r => by
      intro h
      cases rest with
      | nil =>
          rw [inferRanges_cons] at h
          simp only [List.get?_cons_zero, Option.some.injEq] at h
          subst h
          simp only [List.get?_cons_succ, List.get?_nil]
          split <;> omega
      | cons c2 rest2 =>
          rw [inferRanges_cons] at h
          simp only [List.get?_cons_zero, Option.some.injEq] at h
          subst h
          simp only [List.get?_cons_succ, List.get?_cons_zero]
          split <;> omega
  | c :: rest, i + 1, r => by
      intro h
      rw [inferRanges_cons] at h
      simp only [List.get?_cons_succ] at h
      simpa using inferRanges_get_end total rest i r h

theorem inferRanges_le (total : Nat) :
    ∀ (cands : List (String × Nat)), ∀ r ∈ inferRanges cands total,
      r.startPage ≤ r.endPage
  | [], r, hr => by simp [inferRanges] at hr
  | c :: rest, r, hr => by
      rw [inferRanges_cons] at hr
      rcases List.mem_cons.mp hr with h | h
      · subst h
        simp only
        split <;> omega
      · exact inferRanges_le total rest r h

theorem inferRanges_last (total : Nat) :
    ∀ (cands : List (String × Nat)) (hne : cands ≠ []),
      (cands.getLast hne).2 ≤ total →
      ((inferRanges cands total).map RowData.endPage).getLast? = some total
  | [], hne, _ => absurd rfl hne
  | [c], _, hlast => by
      simp only [List.getLast_singleton] at hlast
      rw [inferRanges_cons]
      simp only [inferRanges, List.map_cons, List.map_nil, List.getLast?_singleton,
        Option.some.injEq]
      split <;> omega
  | c :: c2 :: rest, hne, hlast => by
      have hlast2 : ((c2 :: rest).getLast (by simp)).2 ≤ total := by
        rwa [List.getLast_cons (by simp)] at hlast
      have ih := inferRanges_last total (c2 :: rest) (by simp) hlast2
      rw [inferRanges_cons, inferRanges_cons]
      simp only [List.map_cons]
      rw [List.getLast?_cons_cons]
      rw [inferRanges_cons] at ih
      simp only [List.map_cons] at ih
      exact ih

/-- C2 counterexample: a page-ascending non-empty candidate list whose only
start page exceeds the total page count; the clamp raises the computed end
page above the total, so the last inferred range does not end at the total
page count. -/
theorem inferRanges_last_counterexample :
    ((inferRanges [("Chapter", 5)] 3).map RowData.endPage).getLast? ≠ some 3 := by
  decide

/-- C2 amended: for a page-ascending non-empty candidate sequence whose
last start page does not exceed the total page count, each inferred range
starts at its candidate's start page, each end page is the following start
page minus one, or the total page count for the last candidate, clamped up
to the start page; hence every range has endPage at least startPage and the
last range ends exactly at the total page count.  Without the bound on the
last start page the clamp can push the last end page past the total. -/
theorem inferRanges_spec (cands : List (String × Nat)) (total : Nat)
    (hne : cands ≠ [])
    (_hasc : List.Chain' (fun a b => a.2 ≤ b.2) cands)
    (hlast : (cands.getLast hne).2 ≤ total) :
    (∀ i, ((inferRanges cands total).get? i).map RowData.startPage
        = (cands.get? i).map Prod.snd) ∧
    (∀ i r, (inferRanges cands total).get? i = some r →
        r.endPage = max r.startPage
          (match cands.get? (i + 1) with
            | some c2 => c2.2 - 1
            | none => total)) ∧
    (∀ r ∈ inferRanges cands total, r.startPage ≤ r.endPage) ∧
    ((inferRanges cands total).map RowData.endPage).getLast? = some total :=
  ⟨fun i => inferRanges_get_start total cands i,
   fun i r h => inferRanges_get_end total cands i r h,
   fun r hr => inferRanges_le total cands r hr,
   inferRanges_last total cands hne hlast⟩

/-- Witness for inferRanges_spec at the specification's own scenario:
bookmarks at pages 1, 5, 9 with 12 total pages yield ranges ending at
4, 8, 12. -/
theorem inferRanges_spec_witness :
    ((inferRanges [("Intro", 1), ("Body", 5), ("End", 9)] 12).map
        RowData.endPage).getLast? = some 12 ∧
    inferRanges [("Intro", 1), ("Body", 5), ("End", 9)] 12
      = [RowData.mk "Intro" 1 4, RowData.mk "Body" 5 8, RowData.mk "End" 9 12] :=
  ⟨(inferRanges_spec [("Intro", 1), ("Body", 5), ("End", 9)] 12
      (by decide) (by simp) (by decide)).2.2.2,
   by decide⟩

/-- C9: an empty candidate sequence makes the application synthesize the
single default chapter covering the whole document, for every total page
count; in particular 10 pages yield the row named Chapter 1 spanning pages
1 to 10. -/
theorem empty_outline_default (totalPages : Nat) :
    initial_data [] totalPages = [RowData.mk "Chapter 1" 1 totalPages] ∧
    initial_data (extract_potential_chapters []) 10
      = [RowData.mk "Chapter 1" 1 10] := by
  constructor
  · rfl
  · rw [show extract_potential_chapters [] = [] by
      simp [extract_potential_chapters, walkOutline]]
    rfl

end PDFSplitter

namespace PDFSplitter

/-- Runtime value found in a page field of an edited table row: a Python
int, or a present value of any other runtime type, which the isinstance
check of main.py line 110 rejects. -/
inductive Cell where
  | int (n : Int)
  | nonInt
deriving DecidableEq

/-- Chapter definition row as handed to split_pdf (main.py line 98): a dict
whose fields may be absent, retrieved with dict.get. -/
structure Row where
  chapterName : Option String
  startPage : Option Cell
  endPage : Option Cell
deriving DecidableEq

/-- Output document produced for one accepted chapter: its file name and
the copied page sequence.  The temporary directory prefix joined onto the
name in main.py line 121 is a constant of the run and is omitted. -/
structure OutputDocument (α : Type) where
  filename : String
  pages : List α
deriving DecidableEq

/-- Zero-padding of a chapter number to two digits, the Python format 02d
applied to the positive index i+1 (main.py line 121). -/
def pad2 (n : Nat) : String :=
  if n < 10 then "0" ++ toString n else toString n

/-- Processing of the chapter definition at 0-based position i inside the
split_pdf loop (main.py lines 104-134): default the name, reject non-int or
absent page fields, reject out-of-bounds pages, reject start after end,
otherwise emit the document named from the index and the sanitized name,
holding the 1-based inclusive page range start..end copied from the
source.  The per-chapter write failure caught at main.py line 133 concerns
the file system, not the computed page data, and has no counterpart on
lists. -/
def processRow {α : Type} (pages : List α) (total : Nat) (i : Nat) (r : Row) :
    Option (OutputDocument α) :=
  let name := r.chapterName.getD ("Chapter_" ++ toString (i + 1))
  match r.startPage, r.endPage with
  | some (Cell.int s), some (Cell.int e) =>
    if 1 ≤ s ∧ s ≤ (total : Int) ∧ 1 ≤ e ∧ e ≤ (total : Int) then
      if s > e then none
      else some (OutputDocument.mk
        (pad2 (i + 1) ++ "_" ++ sanitize_filename name ++ ".pdf")
        ((pages.drop (s.toNat - 1)).take (e.toNat + 1 - s.toNat)))
    else none
  | _, _ => none

/-- The split_pdf loop (main.py lines 104-134) carrying the running index. -/
def split_go {α : Type} (pages : List α) (total : Nat) :
    Nat → List Row → List (OutputDocument α)
  | _, [] => []
  | i, r :: rest =>
    match processRow pages total i r with
    | some out => out :: split_go pages total (i + 1) rest
    | none => split_go pages total (i + 1) rest

/-- Embedding of split_pdf (main.py lines 95-136). -/
def split_pdf {α : Type} (pages : List α) (defs : List Row) :
    List (OutputDocument α) :=
  split_go pages pages.length 0 defs

/-- Validity of a chapter definition row according to the checks of main.py
lines 110-118: both page fields hold ints, both lie in 1..total, and start
is at most end. -/
def rowValid (total : Nat) (r : Row) : Bool :=
  match r.startPage, r.endPage with
  | some (Cell.int s), some (Cell.int e) =>
    if 1 ≤ s ∧ s ≤ (total : Int) ∧ 1 ≤ e ∧ e ≤ (total : Int) ∧ s ≤ e then true
    else false
  | _, _ => false

/-- Document produced for a valid row, written out once, for stating that
split_pdf maps exactly the valid rows. -/
def mkOut {α : Type} (pages : List α) (i : Nat) (r : Row) : OutputDocument α :=
  match r.startPage, r.endPage with
  | some (Cell.int s), some (Cell.int e) =>
    OutputDocument.mk
      (pad2 (i + 1) ++ "_"
        ++ sanitize_filename (r.chapterName.getD ("Chapter_" ++ toString (i + 1)))
        ++ ".pdf")
      ((pages.drop (s.toNat - 1)).take (e.toNat + 1 - s.toNat))
  | _, _ => OutputDocument.mk "" []

theorem processRow_eq_some {α : Type} (pages : List α) (total i : Nat) (r : Row)
    (h : rowValid total r = true) :
    processRow pages total i r = some (mkOut pages i r) := by
  rcases r with ⟨name, sp, ep⟩
  cases sp with
  | none => simp [rowValid] at h
  | some cs =>
    cases cs with
    | nonInt => simp [rowValid] at h
    | int s =>
      cases ep with
      | none => simp [rowValid] at h
      | some ce =>
        cases ce with
        | nonInt => simp [rowValid] at h
        | int e =>
          simp only [rowValid] at h
          split at h
          · rename_i hcond
            obtain ⟨h1, h2, h3, h4, h5⟩ := hcond
            simp only [processRow, mkOut]
            rw [if_pos ⟨h1, h2, h3, h4⟩, if_neg (by omega)]
          · exact absurd h (by simp)

theorem processRow_eq_none {α : Type} (pages : List α) (total i : Nat) (r : Row)
    (h : rowValid total r = false) :
    processRow pages total i r = none := by
  rcases r with ⟨name, sp, ep⟩
  cases sp with
  | none => rfl
  | some cs =>
    cases cs with
    | nonInt => rfl
    | int s =>
      cases ep with
      | none => rfl
      | some ce =>
        cases ce with
        | nonInt => rfl
        | int e =>
          simp only [rowValid] at h
          split at h
          · exact absurd h (by simp)
          · rename_i hcond
            simp only [processRow]
            by_cases hb : 1 ≤ s ∧ s ≤ (total : Int) ∧ 1 ≤ e ∧ e ≤ (total : Int)
            · rw [if_pos hb, if_pos (by push_neg at hcond; omega)]
            · rw [if_neg hb]

theorem split_go_eq {α : Type} (pages : List α) (total : Nat) :
    ∀ (defs : List Row) (i : Nat),
      split_go pages total i defs
        = ((List.enumFrom i defs).filter fun p => rowValid total p.2).map
            fun p => mkOut pages p.1 p.2
  | [], _ => rfl
  | r :: rest, i => by
      rw [List.enumFrom_cons, List.filter_cons]
      cases hv : rowValid total r with
      | true =>
          simp only [split_go, processRow_eq_some pages total i r hv, hv, if_true]
          rw [List.map_cons, split_go_eq pages total rest (i + 1)]
      | false =>
          simp only [split_go, processRow_eq_none pages total i r hv, hv, if_false]
          exact split_go_eq pages total rest (i + 1)

end PDFSplitter

namespace PDFSplitter

/-- C1: split_pdf produces no document for an invalid definition and
exactly one document per valid definition, in input order: it equals the
map of the output construction over the valid rows of the enumerated
input. -/
theorem split_pdf_valid_rows {α : Type} (pages : List α) (defs : List Row) :
    split_pdf pages defs
      = ((defs.enum).filter fun p => rowValid pages.length p.2).map
          fun p => mkOut pages p.1 p.2 :=
  split_go_eq pages pages.length defs 0

end PDFSplitter

namespace PDFSplitter

/-- A definition list is contiguous, gap-free and non-overlapping from
1-based page s through the end of a total-page document: each row starts
exactly where the previous one stopped plus one and the last row ends at
the final page. -/
def coversFrom (total : Nat) : Int → List Row → Bool
  | s, [] => decide (s = (total : Int) + 1)
  | s, r :: rest =>
    match r.startPage, r.endPage with
    | some (Cell.int s0), some (Cell.int e) =>
      decide (s0 = s) && decide (s ≤ e) && decide (e ≤ (total : Int))
        && coversFrom total (e + 1) rest
    | _, _ => false

theorem split_go_flatten {α : Type} (pages : List α) :
    ∀ (defs : List Row) (i : Nat) (s : Int), 1 ≤ s →
      coversFrom pages.length s defs = true →
      ((split_go pages pages.length i defs).map OutputDocument.pages).flatten
        = pages.drop (s.toNat - 1)
  | [], i, s, hs, hc => by
      simp only [coversFrom, decide_eq_true_eq] at hc
      simp only [split_go, List.map_nil, List.flatten_nil]
      have hlen : pages.length ≤ s.toNat - 1 := by omega
      exact (List.drop_eq_nil_of_le hlen).symm
  | r :: rest, i, s, hs, hc => by
      rcases r with ⟨name, sp, ep⟩
      cases sp with
      | none => simp [coversFrom] at hc
      | some cs =>
        cases cs with
        | nonInt => simp [coversFrom] at hc
        | int s0 =>
          cases ep with
          | none => simp [coversFrom] at hc
          | some ce =>
            cases ce with
            | nonInt => simp [coversFrom] at hc
            | int e =>
              simp only [coversFrom, Bool.and_eq_true, decide_eq_true_eq] at hc
              obtain ⟨⟨⟨hs0, hse⟩, het⟩, hrest⟩ := hc
              subst hs0
              have hvalid : processRow pages pages.length i
                  (Row.mk name (some (Cell.int s0)) (some (Cell.int e)))
                  = some (mkOut pages i
                      (Row.mk name (some (Cell.int s0)) (some (Cell.int e)))) := by
                apply processRow_eq_some
                simp only [rowValid]
                rw [if_pos ⟨by omega, by omega, by omega, by omega, by omega⟩]
              have ih := split_go_flatten pages rest (i + 1) (e + 1)
                (by omega) hrest
              simp only [split_go, hvalid, List.map_cons, List.flatten_cons, ih]
              have harith : s0.toNat - 1 + (e.toNat + 1 - s0.toNat) = (e + 1).toNat - 1 := by
                omega
              rw [show (mkOut pages i
                    (Row.mk name (some (Cell.int s0)) (some (Cell.int e)))).pages
                  = (pages.drop (s0.toNat - 1)).take (e.toNat + 1 - s0.toNat) from rfl]
              rw [show pages.drop ((e + 1).toNat - 1)
                  = (pages.drop (s0.toNat - 1)).drop (e.toNat + 1 - s0.toNat) by
                rw [List.drop_drop, harith]]
              exact List.take_append_drop _ _

/-- C3: for a sequence of valid chapter definitions that is contiguous,
gap-free and non-overlapping and covers pages 1 through totalPages,
concatenating the pages of the produced documents in output order yields
the source page sequence exactly. -/
theorem split_roundtrip {α : Type} (pages : List α) (defs : List Row)
    (h : coversFrom pages.length 1 defs = true) :
    ((split_pdf pages defs).map OutputDocument.pages).flatten = pages := by
  have hmain := split_go_flatten pages defs 0 1 (by omega) h
  simpa [split_pdf] using hmain

/-- Witness for split_roundtrip on a three-page document split into pages
1-2 and page 3. -/
theorem split_roundtrip_witness :
    coversFrom ([10, 20, 30] : List Nat).length 1
        [Row.mk (some "A") (some (Cell.int 1)) (some (Cell.int 2)),
         Row.mk none (some (Cell.int 3)) (some (Cell.int 3))] = true ∧
    ((split_pdf ([10, 20, 30] : List Nat)
        [Row.mk (some "A") (some (Cell.int 1)) (some (Cell.int 2)),
         Row.mk none (some (Cell.int 3)) (some (Cell.int 3))]).map
      OutputDocument.pages).flatten = [10, 20, 30] :=
  ⟨by decide,
   split_roundtrip [10, 20, 30]
     [Row.mk (some "A") (some (Cell.int 1)) (some (Cell.int 2)),
      Row.mk none (some (Cell.int 3)) (some (Cell.int 3))] (by decide)⟩

end PDFSplitter

namespace PDFSplitter

/-- C10: a row whose page fields are valid but whose name field is absent
is still processed, under the default name Chapter_ followed by the 1-based
position; a row lacking a page field is rejected by the integer check and
the loop proceeds with the remaining rows, the warning being I/O outside
the embedding. -/
theorem split_missing_fields {α : Type} (pages : List α) (i : Nat) (s e : Int)
    (r : Row) (rest : List Row)
    (hmiss : r.startPage = none ∨ r.endPage = none)
    (hs : 1 ≤ s) (hst : s ≤ (pages.length : Int))
    (he : 1 ≤ e) (het : e ≤ (pages.length : Int)) (hse : s ≤ e) :
    split_go pages pages.length i (r :: rest)
      = split_go pages pages.length (i + 1) rest ∧
    processRow pages pages.length i
        (Row.mk none (some (Cell.int s)) (some (Cell.int e)))
      = some (OutputDocument.mk
          (pad2 (i + 1) ++ "_"
            ++ sanitize_filename ("Chapter_" ++ toString (i + 1)) ++ ".pdf")
          ((pages.drop (s.toNat - 1)).take (e.toNat + 1 - s.toNat))) := by
  constructor
  · have hnone : processRow pages pages.length i r = none := by
      rcases r with ⟨name, sp, ep⟩
      rcases hmiss with h | h
      · simp only at h
        subst h
        rfl
      · simp only at h
        subst h
        cases sp with
        | none => rfl
        | some cs => cases cs <;> rfl
    simp only [split_go, hnone]
  · simp only [processRow, Option.getD]
    rw [if_pos ⟨hs, hst, he, het⟩, if_neg (by omega)]

/-- Witness for split_missing_fields on a two-page document: the row with
an absent start page is skipped while the loop continues, and a nameless
row covering pages 1-2 yields the document named 01_Chapter_1.pdf. -/
theorem split_missing_fields_witness :
    split_go ([5, 6] : List Nat) ([5, 6] : List Nat).length 0
        (Row.mk (some "X") none (some (Cell.int 1)) :: [])
      = split_go ([5, 6] : List Nat) ([5, 6] : List Nat).length 1 [] ∧
    processRow ([5, 6] : List Nat) ([5, 6] : List Nat).length 0
        (Row.mk none (some (Cell.int 1)) (some (Cell.int 2)))
      = some (OutputDocument.mk
          (pad2 1 ++ "_" ++ sanitize_filename ("Chapter_" ++ toString 1) ++ ".pdf")
          ((([5, 6] : List Nat).drop ((1 : Int).toNat - 1)).take
            ((2 : Int).toNat + 1 - (1 : Int).toNat))) :=
  split_missing_fields [5, 6] 0 1 2 (Row.mk (some "X") none (some (Cell.int 1))) []
    (Or.inl rfl) (by decide) (by decide) (by decide) (by decide) (by decide)

end PDFSplitter
